import Mathlib

/-!
Verification of the logbar progress-bar library (src/lib.rs).

The library is embedded shallowly: the output stream is modelled as a
`List Char` of emitted characters, the mutex-protected counter as a plain
record threaded through the operations (all operations here are analysed
sequentially, so the lock is irrelevant), and `usize` as `Nat`.  Rust
truncating subtraction on `usize` is modelled by truncated `Nat`
subtraction; where the code relies on the subtraction not underflowing we
prove that fact separately.
-/

namespace Logbar

/-- Constant from src/lib.rs line 48: `static DEFAULT_WIDTH: usize = 50`. -/
def DEFAULT_WIDTH : Nat := 50

/-- Constant from src/lib.rs line 52: `static SEGMENTS: [usize; 4] = [10, 5, 4, 2]`. -/
def SEGMENTS : List Nat := [10, 5, 4, 2]

/-- `Style` from src/lib.rs lines 56-62. -/
structure Style where
  width : Nat
  labels : Bool
  tick : Char
  bar : Char
  indicator : Char

/-- `Style::default` from src/lib.rs lines 169-177. -/
def Style.default : Style :=
  { width := DEFAULT_WIDTH, labels := true, tick := '|', bar := '=', indicator := '#' }

/-- `Counter` from src/lib.rs lines 181-185 (the `Default` derive gives
count 0, progress 0, finished false). -/
structure Counter where
  count : Nat
  progress : Nat
  finished : Bool

/-- `Counter::default()`. -/
def Counter.default : Counter := { count := 0, progress := 0, finished := false }

/-- `ProgressBar` from src/lib.rs lines 189-193, with the
`Arc<Mutex<Counter>>` flattened to the counter value itself. -/
structure ProgressBar where
  counter : Counter
  max_progress : Nat
  style : Style

/-- The loop body of `num_segments` (src/lib.rs lines 196-202): walk the
candidate list, returning the first `s` with `width % s == 0 && width / s > 3`;
fall through to 1. -/
def findSeg (width : Nat) : List Nat → Nat
  | [] => 1
  | s :: rest => if width % s = 0 ∧ 3 < width / s then s else findSeg width rest

/-- `num_segments` from src/lib.rs lines 195-204. -/
def num_segments (width : Nat) : Nat := findSeg width SEGMENTS

/-- `draw_labels` from src/lib.rs lines 206-217, collecting the characters
written to stderr. -/
def draw_labels (width segments : Nat) : List Char :=
  let seg_width := width / segments
  "0% ".toList
    ++ ((List.range' 1 segments).map (fun p =>
          List.replicate (seg_width - 3) ' '
            ++ (Nat.repr (p * 100 / segments)).toList ++ ['%'])).flatten
    ++ ['\n']

/-- `draw_tickbar` from src/lib.rs lines 219-231, collecting the characters
written to stderr. -/
def draw_tickbar (s : Style) (segments : Nat) : List Char :=
  let seg_width := s.width / segments
  [s.tick]
    ++ (List.replicate segments
          (List.replicate (seg_width - 1) s.bar ++ [s.tick])).flatten
    ++ ['\n']

/-- `draw_bar` from src/lib.rs lines 233-244: optional label ruler, then a
three-way branch on `width.cmp(&1)`. -/
def draw_bar (s : Style) : List Char :=
  let segments := num_segments s.width
  (if 3 < s.width ∧ s.labels = true then draw_labels s.width segments else [])
    ++ (match compare s.width 1 with
        | Ordering.gt => draw_tickbar s segments
        | Ordering.eq => [s.tick, '\n']
        | Ordering.lt => [])

/-- The saturating count update in `inc` (src/lib.rs line 313):
`cmp::min(c.count + i, self.max_progress)`. -/
def incNewCount (b : ProgressBar) (i : Nat) : Nat :=
  min (b.counter.count + i) b.max_progress

/-- The guarded progress computation in `inc` (src/lib.rs lines 314-318):
`new_count * width / max_progress` when `max_progress > 0`, else 0. -/
def incNewProgress (b : ProgressBar) (i : Nat) : Nat :=
  if 0 < b.max_progress then incNewCount b i * b.style.width / b.max_progress else 0

/-- `ProgressBar::inc` from src/lib.rs lines 310-330: returns the updated
bar and the characters emitted (`diff` copies of the indicator glyph,
where `diff` is the truncating `usize` subtraction `new_progress - c.progress`). -/
def ProgressBar.inc (b : ProgressBar) (i : Nat) : ProgressBar × List Char :=
  (⟨⟨incNewCount b i, incNewProgress b i, false⟩, b.max_progress, b.style⟩,
   List.replicate (incNewProgress b i - b.counter.progress) b.style.indicator)

/-- `ProgressBar::finish` from src/lib.rs lines 345-352: `inc(max_progress)`,
then emit a newline and set the flag if `finished` is not yet set. -/
def ProgressBar.finish (b : ProgressBar) : ProgressBar × List Char :=
  let r := b.inc b.max_progress
  let b1 := r.1
  if b1.counter.finished then (b1, r.2)
  else
    (⟨⟨b1.counter.count, b1.counter.progress, true⟩, b1.max_progress, b1.style⟩,
     r.2 ++ ['\n'])

/-- `ProgressBar::with_style` from src/lib.rs lines 269-277: fresh default
counter, draw the scale once; the second component is the construction output. -/
def ProgressBar.with_style (max_progress : Nat) (style : Style) : ProgressBar × List Char :=
  (⟨Counter.default, max_progress, style⟩, draw_bar style)

/-- Run a finite sequence of `inc` calls, concatenating their outputs. -/
def ProgressBar.runIncs (b : ProgressBar) : List Nat → ProgressBar × List Char
  | [] => (b, [])
  | i :: rest =>
    let r := b.inc i
    let r2 := r.1.runIncs rest
    (r2.1, r.2 ++ r2.2)

/-- The reachable-state invariant of the counter: the count never exceeds
the target and the progress field is the scaled count.  (For
`max_progress = 0` the second component reads `progress = count * width / 0 = 0`,
matching the guarded branch of `inc`.) -/
def ProgressBar.Inv (b : ProgressBar) : Prop :=
  b.counter.count ≤ b.max_progress ∧
  b.counter.progress = b.counter.count * b.style.width / b.max_progress

/-- The invariant exactly as the specification states it, split on
`max_progress`. -/
def counterInv (b : ProgressBar) : Prop :=
  (0 < b.max_progress → b.counter.progress = b.counter.count * b.style.width / b.max_progress)
  ∧ (b.max_progress = 0 → b.counter.progress = 0)

/-- Transcription of the segment-selection rule as the specification words
it: the first of 10, 5, 4, 2 that divides `width` with quotient strictly
greater than 3, else 1. -/
def num_segments_spec (width : Nat) : Nat :=
  if width % 10 = 0 ∧ 3 < width / 10 then 10
  else if width % 5 = 0 ∧ 3 < width / 5 then 5
  else if width % 4 = 0 ∧ 3 < width / 4 then 4
  else if width % 2 = 0 ∧ 3 < width / 2 then 2
  else 1

/-! ### Helper lemmas -/

/-- Unfolding of `incNewProgress` valid for every `max_progress`, using
`x / 0 = 0` on `Nat` for the guarded branch. -/
lemma incNewProgress_eq (b : ProgressBar) (i : Nat) :
    incNewProgress b i = incNewCount b i * b.style.width / b.max_progress := by
  unfold incNewProgress
  split
  · rfl
  · rename_i h
    have hmp : b.max_progress = 0 := by omega
    rw [hmp, Nat.div_zero]

/-- `inc` re-establishes the reachable-state invariant from any state. -/
lemma inc_inv (b : ProgressBar) (i : Nat) : (b.inc i).1.Inv := by
  constructor
  · show incNewCount b i ≤ b.max_progress
    exact min_le_right _ _
  · show incNewProgress b i = incNewCount b i * b.style.width / b.max_progress
    exact incNewProgress_eq b i

/-- A freshly constructed bar satisfies the invariant. -/
lemma with_style_inv (mp : Nat) (st : Style) : (ProgressBar.with_style mp st).1.Inv := by
  constructor
  · exact Nat.zero_le _
  · show (0 : Nat) = 0 * st.width / mp
    rw [Nat.zero_mul, Nat.zero_div]

/-- Under the invariant, the freshly computed progress width is at least the
stored one, so the `usize` subtraction in `inc` cannot underflow. -/
lemma progress_le_incNewProgress (b : ProgressBar) (i : Nat) (hb : b.Inv) :
    b.counter.progress ≤ incNewProgress b i := by
  obtain ⟨hc, hp⟩ := hb
  rw [hp, incNewProgress_eq]
  gcongr
  simp only [incNewCount]
  omega

/-- `finish` in closed form: since `inc` stores `finished := false`, the
guard in `finish` always takes the newline branch. -/
lemma finish_eq (b : ProgressBar) :
    b.finish = (⟨⟨incNewCount b b.max_progress, incNewProgress b b.max_progress, true⟩,
                 b.max_progress, b.style⟩,
                (b.inc b.max_progress).2 ++ ['\n']) := rfl

/-- The per-call characterisation of a run of `inc` calls: the final count
is the saturated sum, and the emitted output length telescopes to the final
progress width minus the starting one. -/
lemma runIncs_spec (l : List Nat) : ∀ b : ProgressBar, b.Inv →
    (b.runIncs l).1.counter.count = min (b.counter.count + l.sum) b.max_progress ∧
    (b.runIncs l).2.length =
      min (b.counter.count + l.sum) b.max_progress * b.style.width / b.max_progress
        - b.counter.progress := by
  induction l with
  | nil =>
    intro b hb
    obtain ⟨hc, hp⟩ := hb
    constructor
    · show b.counter.count = _
      simp only [List.sum_nil]
      omega
    · show (List.nil (α := Char)).length = _
      have h : min (b.counter.count + List.sum []) b.max_progress = b.counter.count := by
        simp only [List.sum_nil]; omega
      rw [h, ← hp]
      simp
  | cons i rest ih =>
    intro b hb
    obtain ⟨ih1, ih2⟩ := ih (b.inc i).1 (inc_inv b i)
    have hcnt : (b.inc i).1.counter.count = incNewCount b i := rfl
    have hprg : (b.inc i).1.counter.progress = incNewProgress b i := rfl
    have hmax : (b.inc i).1.max_progress = b.max_progress := rfl
    have hsty : (b.inc i).1.style = b.style := rfl
    simp only [hcnt, hprg, hmax, hsty] at ih1 ih2
    have harg : min (incNewCount b i + rest.sum) b.max_progress
        = min (b.counter.count + (i :: rest).sum) b.max_progress := by
      simp only [incNewCount, List.sum_cons]
      omega
    constructor
    · show ((b.inc i).1.runIncs rest).1.counter.count = _
      rw [ih1, harg]
    · show ((b.inc i).2 ++ ((b.inc i).1.runIncs rest).2).length = _
      rw [List.length_append, ih2, harg]
      have hlen : (b.inc i).2.length = incNewProgress b i - b.counter.progress := by
        simp [ProgressBar.inc]
      rw [hlen]
      have hAB : b.counter.progress ≤ incNewProgress b i :=
        progress_le_incNewProgress b i hb
      have hBF : incNewProgress b i
          ≤ min (b.counter.count + (i :: rest).sum) b.max_progress * b.style.width
              / b.max_progress := by
        rw [incNewProgress_eq]
        gcongr
        simp only [incNewCount, List.sum_cons]
        omega
      omega

/-! ### Claim theorems -/

/-- C1: for every max_progress > 0, every style (hence every width), and
every finite sequence of inc calls, the total number of characters emitted
by those calls (inc emits only indicator glyphs) equals
floor(min(sum, max_progress) * width / max_progress): emission is
path-independent. -/
theorem inc_total_emission_path_independent (mp : Nat) (st : Style) (l : List Nat)
    (_hmp : 0 < mp) :
    ((ProgressBar.with_style mp st).1.runIncs l).2.length = min l.sum mp * st.width / mp := by
  obtain ⟨-, h2⟩ := runIncs_spec l (ProgressBar.with_style mp st).1 (with_style_inv mp st)
  simpa [ProgressBar.with_style, Counter.default] using h2

/-- Witness for C1 at max_progress 10, default style, increments [1, 3]. -/
theorem inc_total_emission_path_independent_witness :
    0 < 10 ∧
    ((ProgressBar.with_style 10 Style.default).1.runIncs [1, 3]).2.length
      = min ([1, 3] : List Nat).sum 10 * Style.default.width / 10 :=
  ⟨by decide, inc_total_emission_path_independent 10 Style.default [1, 3] (by decide)⟩

/-- C2 fails on the code: because `inc` stores `finished := false` and
`finish` first calls `inc(max_progress)`, the `!finished` guard in `finish`
always passes, so each of two successive `finish` calls emits one trailing
newline — two in total, not one.  Evaluated here on a fresh bar with
max_progress 1 and the default style. -/
theorem finish_twice_emits_two_newlines :
    ((ProgressBar.with_style 1 Style.default).1.finish.2.count '\n') = 1 ∧
    ((ProgressBar.with_style 1 Style.default).1.finish.1.finish.2.count '\n') = 1 := by
  decide

/-- C3: the spec counter invariant holds after construction and is
preserved by every inc and finish call; together with count ≤ max_progress
it makes the freshly computed progress at least the stored one, so the
subtraction inside inc never underflows. -/
theorem counter_invariant (mp i : Nat) (st : Style) (b : ProgressBar)
    (hb : b.counter.count ≤ b.max_progress ∧ counterInv b) :
    counterInv (ProgressBar.with_style mp st).1 ∧
    counterInv (b.inc i).1 ∧
    counterInv b.finish.1 ∧
    b.counter.progress ≤ incNewProgress b i := by
  obtain ⟨hc, hci⟩ := hb
  have hInv : b.Inv := by
    refine ⟨hc, ?_⟩
    rcases Nat.eq_zero_or_pos b.max_progress with h | h
    · rw [hci.2 h, h, Nat.div_zero]
    · exact hci.1 h
  refine ⟨⟨?_, ?_⟩, ⟨?_, ?_⟩, ⟨?_, ?_⟩, progress_le_incNewProgress b i hInv⟩
  · intro _
    show (0 : Nat) = 0 * st.width / mp
    rw [Nat.zero_mul, Nat.zero_div]
  · intro _
    rfl
  · intro _
    exact incNewProgress_eq b i
  · intro h
    have h0 : b.max_progress = 0 := h
    show incNewProgress b i = 0
    simp [incNewProgress, h0]
  · intro _
    show incNewProgress b b.max_progress
      = incNewCount b b.max_progress * b.style.width / b.max_progress
    exact incNewProgress_eq b b.max_progress
  · intro h
    have h0 : b.max_progress = 0 := h
    show incNewProgress b b.max_progress = 0
    simp [incNewProgress, h0]

/-- Witness for C3 at fresh bars with max_progress 7 and 5 and increment 2. -/
theorem counter_invariant_witness :
    counterInv (ProgressBar.with_style 7 Style.default).1 ∧
    counterInv ((ProgressBar.with_style 5 Style.default).1.inc 2).1 ∧
    counterInv (ProgressBar.with_style 5 Style.default).1.finish.1 ∧
    (ProgressBar.with_style 5 Style.default).1.counter.progress
      ≤ incNewProgress (ProgressBar.with_style 5 Style.default).1 2 :=
  counter_invariant 7 2 Style.default (ProgressBar.with_style 5 Style.default).1
    ⟨by decide, fun _ => rfl, fun _ => rfl⟩

/-- C4: inc saturates — the new count is min(old + delta, max_progress),
never exceeds max_progress, and (for any state with count ≤ max_progress,
as every reachable state has) never decreases; an oversized increment is
absorbed without error. -/
theorem inc_saturating_monotone (b : ProgressBar) (i : Nat)
    (hb : b.counter.count ≤ b.max_progress) :
    (b.inc i).1.counter.count = min (b.counter.count + i) b.max_progress ∧
    (b.inc i).1.counter.count ≤ b.max_progress ∧
    b.counter.count ≤ (b.inc i).1.counter.count := by
  refine ⟨rfl, ?_, ?_⟩
  · show incNewCount b i ≤ b.max_progress
    exact min_le_right _ _
  · show b.counter.count ≤ incNewCount b i
    simp only [incNewCount]
    omega

/-- Witness for C4 at a fresh bar with max_progress 3 and oversized
increment 5. -/
theorem inc_saturating_monotone_witness :
    ((ProgressBar.with_style 3 Style.default).1.inc 5).1.counter.count
      = min ((ProgressBar.with_style 3 Style.default).1.counter.count + 5)
          (ProgressBar.with_style 3 Style.default).1.max_progress ∧
    ((ProgressBar.with_style 3 Style.default).1.inc 5).1.counter.count
      ≤ (ProgressBar.with_style 3 Style.default).1.max_progress ∧
    (ProgressBar.with_style 3 Style.default).1.counter.count
      ≤ ((ProgressBar.with_style 3 Style.default).1.inc 5).1.counter.count :=
  inc_saturating_monotone (ProgressBar.with_style 3 Style.default).1 5 (by decide)

/-- C5: when max_progress = 0, every inc call computes visual progress 0
and emits nothing; the guarded branch never divides by max_progress. -/
theorem zero_max_progress_safe (b : ProgressBar) (i : Nat)
    (h : b.max_progress = 0) :
    incNewProgress b i = 0 ∧ (b.inc i).1.counter.progress = 0 ∧ (b.inc i).2 = [] := by
  have h1 : incNewProgress b i = 0 := by simp [incNewProgress, h]
  refine ⟨h1, h1, ?_⟩
  show List.replicate (incNewProgress b i - b.counter.progress) b.style.indicator = []
  rw [h1, Nat.zero_sub, List.replicate_zero]

/-- Witness for C5 at a fresh zero-target bar and increment 42. -/
theorem zero_max_progress_safe_witness :
    incNewProgress (ProgressBar.with_style 0 Style.default).1 42 = 0 ∧
    ((ProgressBar.with_style 0 Style.default).1.inc 42).1.counter.progress = 0 ∧
    ((ProgressBar.with_style 0 Style.default).1.inc 42).2 = [] :=
  zero_max_progress_safe (ProgressBar.with_style 0 Style.default).1 42 rfl

/-- C6: num_segments is a pure function of width returning the first
candidate among 10, 5, 4, 2 that divides width with quotient strictly
greater than 3, and 1 when none qualifies — the source loop coincides with
the rule as the specification words it. -/
theorem num_segments_first_qualifying_candidate (width : Nat) :
    num_segments width = num_segments_spec width := rfl

/-- C7: draw_bar draws the label ruler iff width > 3 and labels are
enabled, then draws the tick track when width > 1, a single tick plus
newline when width = 1, and nothing when width < 1; a width-0 style
produces no construction output at all. -/
theorem draw_bar_branching (s : Style) (mp : Nat) :
    (draw_bar s =
      (if 3 < s.width ∧ s.labels = true then draw_labels s.width (num_segments s.width)
       else [])
        ++ (if 1 < s.width then draw_tickbar s (num_segments s.width)
            else if s.width = 1 then [s.tick, '\n'] else [])) ∧
    (s.width = 0 → draw_bar s = [] ∧ (ProgressBar.with_style mp s).2 = []) := by
  obtain ⟨w, lab, t, bc, ind⟩ := s
  constructor
  · show draw_bar ⟨w, lab, t, bc, ind⟩ = _
    dsimp only [draw_bar]
    congr 1
    rcases w with _ | _ | n
    · rfl
    · rfl
    · have hcmp : compare (n + 1 + 1) 1 = Ordering.gt := rfl
      rw [hcmp, if_pos (show 1 < n + 1 + 1 by omega)]
  · intro hw
    have hw0 : w = 0 := hw
    subst hw0
    exact ⟨rfl, rfl⟩

/-- Witness for C7 at a width-0 style. -/
theorem draw_bar_branching_witness :
    draw_bar ⟨0, true, '|', '=', '#'⟩ = [] ∧
    (ProgressBar.with_style 5 ⟨0, true, '|', '=', '#'⟩).2 = [] :=
  (draw_bar_branching ⟨0, true, '|', '=', '#'⟩ 5).2 rfl

/-- C8: every inc stores finished = false, also right after a finish, so a
subsequent finish emits a newline again. -/
theorem inc_resets_finished (b : ProgressBar) (i : Nat) :
    (b.inc i).1.counter.finished = false ∧
    ((b.finish.1).inc i).1.counter.finished = false ∧
    '\n' ∈ ((b.finish.1.inc i).1.finish).2 := by
  refine ⟨rfl, rfl, ?_⟩
  rw [finish_eq]
  simp

/-- C9 as stated is false: for the width-0 style, 5 divides the width, yet
the tick line does not consist of width + 1 glyphs plus a newline (the
model emits six ticks and a newline; in the source the subtraction
`seg_width - 1` underflows there). -/
theorem draw_tickbar_zero_width_counterexample :
    (5 ∣ (Style.mk 0 false '|' '=' '#').width) ∧
    (draw_tickbar (Style.mk 0 false '|' '=' '#') 5).length
      ≠ (Style.mk 0 false '|' '=' '#').width + 1 + 1 := by
  decide

/-- C9 amended: for every style of positive width and every segment count
dividing the width (the only case draw_bar invokes), draw_tickbar emits one
tick, then per segment (segment_width - 1) bar glyphs and a tick, then a
newline — width + 1 glyphs before the newline. -/
theorem draw_tickbar_line_length (s : Style) (segments : Nat)
    (hw : 0 < s.width) (hdvd : segments ∣ s.width) :
    draw_tickbar s segments
      = [s.tick]
          ++ (List.replicate segments
                (List.replicate (s.width / segments - 1) s.bar ++ [s.tick])).flatten
          ++ ['\n'] ∧
    (draw_tickbar s segments).length = s.width + 2 := by
  refine ⟨rfl, ?_⟩
  have hseg : 0 < segments := by
    rcases Nat.eq_zero_or_pos segments with h | h
    · subst h
      have h0 := Nat.eq_zero_of_zero_dvd hdvd
      omega
    · exact h
  have hq : 0 < s.width / segments := Nat.div_pos (Nat.le_of_dvd hw hdvd) hseg
  show ([s.tick]
      ++ (List.replicate segments
            (List.replicate (s.width / segments - 1) s.bar ++ [s.tick])).flatten
      ++ ['\n']).length = s.width + 2
  rw [List.length_append, List.length_append, List.length_flatten]
  simp only [List.map_replicate, List.length_append, List.length_replicate,
    List.length_cons, List.length_nil, List.sum_replicate, smul_eq_mul]
  have h1 : s.width / segments - 1 + 1 = s.width / segments := by omega
  rw [h1, Nat.mul_div_cancel' hdvd]
  omega

/-- Witness for the amended C9 at the default style with 10 segments. -/
theorem draw_tickbar_line_length_witness :
    0 < Style.default.width ∧ 10 ∣ Style.default.width ∧
    (draw_tickbar Style.default 10).length = Style.default.width + 2 :=
  ⟨by decide, by decide,
   (draw_tickbar_line_length Style.default 10 (by decide) (by decide)).2⟩

/-- C10: num_segments always evenly divides the width, the segment width is
at least 4 whenever draw_bar calls draw_labels (width > 3 and labels on),
and at least 1 whenever it calls draw_tickbar (width > 1), so the
subtractions seg_width - 3 and seg_width - 1 never underflow. -/
theorem num_segments_call_safety (s : Style) :
    num_segments s.width ∣ s.width ∧
    (3 < s.width ∧ s.labels = true → 4 ≤ s.width / num_segments s.width) ∧
    (1 < s.width → 1 ≤ s.width / num_segments s.width) := by
  have h : num_segments s.width ∣ s.width ∧
      (3 < s.width → 4 ≤ s.width / num_segments s.width) ∧
      (1 < s.width → 1 ≤ s.width / num_segments s.width) := by
    generalize s.width = w
    simp only [num_segments, SEGMENTS, findSeg]
    split_ifs with h1 h2 h3 h4
    · obtain ⟨ha, hb⟩ := h1
      exact ⟨by omega, fun _ => by omega, fun _ => by omega⟩
    · obtain ⟨ha, hb⟩ := h2
      exact ⟨by omega, fun _ => by omega, fun _ => by omega⟩
    · obtain ⟨ha, hb⟩ := h3
      exact ⟨by omega, fun _ => by omega, fun _ => by omega⟩
    · obtain ⟨ha, hb⟩ := h4
      exact ⟨by omega, fun _ => by omega, fun _ => by omega⟩
    · exact ⟨one_dvd w, fun hc => by omega, fun hc => by omega⟩
  exact ⟨h.1, fun hc => h.2.1 hc.1, h.2.2⟩

/-- Witness for C10 at the default style (width 50, labels on). -/
theorem num_segments_call_safety_witness :
    num_segments Style.default.width ∣ Style.default.width ∧
    4 ≤ Style.default.width / num_segments Style.default.width ∧
    1 ≤ Style.default.width / num_segments Style.default.width :=
  ⟨(num_segments_call_safety Style.default).1,
   (num_segments_call_safety Style.default).2.1 ⟨by decide, rfl⟩,
   (num_segments_call_safety Style.default).2.2 (by decide)⟩

end Logbar
